import Mathlib

/-!
Ganit transaction-batch generator (`scripts/test.js`).

A shallow embedding of the generator script and the properties proved about it.

Modelling conventions.

* `keccak256 (defaultAbiCoder.encode ...)` is an uninterpreted function: the two
  call shapes of the script are the two fields of `Hashing`.
* `Date.now ()` and `Math.random ()` read from input streams carried in the
  `World`; every call advances the matching counter.
* A JavaScript Number is the rational it denotes. The literal `0.3` is the double
  nearest to 3/10, and the product `Math.random () * 100` is the exact product rounded
  to the nearest double, ties to even (`roundDouble`). Comparison, `Math.floor` and the
  sums of small integers are exact on doubles.
* The external sinks (`writePreSignedTxFile`, `ProgressBar.tick`) append to one
  ordered trace of effects; a file is the sub-sequence of its writes.
* The test `i % (gameCount / 100) == 0` of the create loop is a floating-point
  remainder; it is kept as the parameter `bar1Due` of the environment.
* A JavaScript exception is the `Except.error` result.
-/

namespace Ganit

abbrev Address := Nat
abbrev PrivateKey := Nat
abbrev Bytes32 := Nat

/-- The hash of an ABI encoding, for the two tuples the script encodes. -/
structure Hashing where
  /-- Models `keccak256 (encode ['uint256','address','address','uint256'] ...)`. -/
  gameHash : Nat → Address → Address → Nat → Bytes32
  /-- Models `keccak256 (encode ['bytes32','uint256'] [gameId, questionId])` read as a big number. -/
  seedHash : Bytes32 → Nat → Nat

/-- The unsigned transactions built by `ganit.populateTransaction`. -/
inductive Tx where
  | createGame (opponent : Address)
  | submitAnswer (gameId : Bytes32) (questionId : Nat) (answer : Int)
  | forceEndGame (gameId : Bytes32)
  deriving DecidableEq, Repr

/-- The three output files: `handle_create`, `handle_answers`, `handle_end`. -/
inductive Stream where
  | create
  | answers
  | finish
  deriving DecidableEq, Repr

/-- The two progress bars of the script. -/
inductive Bar where
  | bar1
  | bar2
  deriving DecidableEq, Repr

/-- One observable effect of the script. -/
inductive Effect where
  | write (h : Stream) (wallet : PrivateKey) (tx : Tx)
  | tick (b : Bar)
  deriving DecidableEq, Repr

/-- The mutable surroundings of a run. -/
structure World where
  now : Nat → Nat
  nowCalls : Nat
  random : Nat → ℚ
  randomCalls : Nat
  trace : List Effect

/-- The provisioned inputs of a run. -/
structure Env where
  hashing : Hashing
  /-- The addresses of `hre.ethers.getSigners ()`. -/
  accounts : List Address
  /-- The private keys of the network profile. -/
  keys : List PrivateKey
  /-- The floating-point test `i % (gameCount / 100) == 0`, by `gameCount` and `i`. -/
  bar1Due : Nat → Nat → Bool

/-- Models `Date.now ()`. -/
def dateNow (w : World) : Nat × World :=
  (w.now w.nowCalls, { w with nowCalls := w.nowCalls + 1 })

/-- Models `Math.random ()`. -/
def mathRandom (w : World) : ℚ × World :=
  (w.random w.randomCalls, { w with randomCalls := w.randomCalls + 1 })

/-- Appends one effect to the trace. -/
def emit (w : World) (e : Effect) : World :=
  { w with trace := w.trace ++ [e] }

/-- Models `BigNumber.toNumber`, which throws above 53 bits. -/
def toNumber (n : Nat) : Except String Int :=
  if n < 2 ^ 53 then .ok (n : Int) else .error "overflow"

/-- Models `accounts[k].address`, a TypeError when `accounts[k]` is undefined. -/
def addressAt (accounts : List Address) (k : Nat) : Except String Address :=
  match accounts[k]? with
  | some a => .ok a
  | none => .error "TypeError"

/-- Models `new hre.ethers.Wallet (keys[k], provider)`, which throws on an undefined key. -/
def newWallet (keys : List PrivateKey) (k : Nat) : Except String PrivateKey :=
  match keys[k]? with
  | some pk => .ok pk
  | none => .error "invalid private key"

/-- The expression `(i * 2) % accounts.length`. -/
def player1Index (i A : Nat) : Nat := (i * 2) % A

/-- The expression `(i * 2 + 1) % accounts.length`. -/
def player2Index (i A : Nat) : Nat := (i * 2 + 1) % A

/-- The function `calculateCorrectAnswer`. -/
def calculateCorrectAnswer (H : Hashing) (gameId : Bytes32) (questionId : Nat) :
    Except String Int := do
  let seedNum := H.seedHash gameId questionId
  let num1 ← toNumber (seedNum % 50 + 1)
  let num2 ← toNumber ((seedNum >>> 8) % 30 + 1)
  let operation ← toNumber ((seedNum >>> 16) % 3)
  if operation = 0 then
    return num1 + num2
  if operation = 1 then
    return |num1 - num2|
  return (Int.tmod num1 12 + 1) * (Int.tmod num2 12 + 1)

/-- Rounds a rational to the nearest integer, ties to the even one. -/
def roundHalfEven (n : ℚ) : ℤ :=
  if n - ⌊n⌋ < 1 / 2 then ⌊n⌋
  else if 1 / 2 < n - ⌊n⌋ then ⌊n⌋ + 1
  else if ⌊n⌋ % 2 = 0 then ⌊n⌋ else ⌊n⌋ + 1

/-- The spacing of the doubles around `x ≥ 0`: `2 ^ (e - 52)` in the binade
`2 ^ e ≤ x < 2 ^ (e + 1)`, and `2 ^ (-1074)` in the subnormal range. -/
def quantum (x : ℚ) : ℚ := (2 : ℚ) ^ (max (Int.log 2 x - 52) (-1074))

/-- The IEEE 754 double nearest to `x`, ties to even, for `0 ≤ x < 2 ^ 1024`: the value of
a decimal literal and the result of an arithmetic operation whose exact value is `x`. -/
def roundDouble (x : ℚ) : ℚ := (roundHalfEven (x / quantum x) : ℚ) * quantum x

/-- The non-negative finite doubles: 53-bit significand times a power of two. -/
def IsDouble (x : ℚ) : Prop :=
  ∃ (m : ℕ) (e : ℤ), m < 2 ^ 53 ∧ -1074 ≤ e ∧ e ≤ 971 ∧ x = (m : ℚ) * (2 : ℚ) ^ e

/-- The function `generateRandomAnswer`: `random < 0.3` compares with the double `0.3`,
and `Math.random () * 100` is a double multiplication. -/
def generateRandomAnswer (H : Hashing) (gameId : Bytes32) (questionId : Nat) (w : World) :
    Except String (Int × World) :=
  let (random, w1) := mathRandom w
  if random < roundDouble (3 / 10) then do
    let a ← calculateCorrectAnswer H gameId questionId
    return (a, w1)
  else
    let (r, w2) := mathRandom w1
    .ok (⌊roundDouble (r * 100)⌋ + 1, w2)

/-- The function `generateGameId`. -/
def generateGameId (H : Hashing) (index : Nat) (accounts : List Address) (w : World) :
    Except String (Bytes32 × World) := do
  let (t, w1) := dateNow w
  let a ← addressAt accounts (index * 2 % accounts.length)
  let b ← addressAt accounts ((index * 2 + 1) % accounts.length)
  return (H.gameHash (t + index) a b index, w1)

/-- A counting loop `for (i = start; i < start + count; i++) body`. -/
def loopFrom {σ : Type} (body : Nat → σ → Except String σ) : Nat → Nat → σ → Except String σ
  | 0, _, s => .ok s
  | k + 1, i, s => body i s >>= loopFrom body k (i + 1)

/-- The body of the create loop (lines 50 to 66). -/
def createBody (env : Env) (gameCount i : Nat) (w : World) : Except String World := do
  let p1 := player1Index i env.accounts.length
  let p2 := player2Index i env.accounts.length
  let wallet ← newWallet env.keys (p1 % env.keys.length)
  let opponent ← addressAt env.accounts p2
  let w1 := emit w (.write .create wallet (.createGame opponent))
  if 0 < i ∧ env.bar1Due gameCount i = true then
    return emit w1 (.tick .bar1)
  else
    return w1

/-- The body of the question loop (lines 89 to 109); the state carries `answerTxCount`. -/
def questionBody (env : Env) (totalAnswerTxs i : Nat) (gameId : Bytes32) (questionId : Nat)
    (s : World × Nat) : Except String (World × Nat) := do
  let (w, answerTxCount) := s
  let p1 := player1Index i env.accounts.length
  let wallet1 ← newWallet env.keys (p1 % env.keys.length)
  let (answer1, w1) ← generateRandomAnswer env.hashing gameId questionId w
  let w2 := emit w1 (.write .answers wallet1 (.submitAnswer gameId questionId answer1))
  let answerTxCount := answerTxCount + 1
  let p2 := player2Index i env.accounts.length
  let wallet2 ← newWallet env.keys (p2 % env.keys.length)
  let (answer2, w3) ← generateRandomAnswer env.hashing gameId questionId w2
  let w4 := emit w3 (.write .answers wallet2 (.submitAnswer gameId questionId answer2))
  let answerTxCount := answerTxCount + 1
  if answerTxCount % max 1 (totalAnswerTxs / 100) = 0 then
    return (emit w4 (.tick .bar2), answerTxCount)
  else
    return (w4, answerTxCount)

/-- The body of the submit loop over games (lines 86 to 110). -/
def submitBody (env : Env) (totalAnswerTxs answersPerGame i : Nat) (s : World × Nat) :
    Except String (World × Nat) := do
  let (w, answerTxCount) := s
  let (gameId, w1) ← generateGameId env.hashing i env.accounts w
  loopFrom (questionBody env totalAnswerTxs i gameId) answersPerGame 0 (w1, answerTxCount)

/-- The body of the end loop (lines 120 to 126). -/
def endBody (env : Env) (i : Nat) (w : World) : Except String World := do
  let (gameId, w1) ← generateGameId env.hashing i env.accounts w
  let signerIndex := i % env.keys.length
  let wallet ← newWallet env.keys signerIndex
  return emit w1 (.write .finish wallet (.forceEndGame gameId))

/-- The three phases of `main`, from a given world; returns the final `answerTxCount`. -/
def mainFrom (env : Env) (gameCount answersPerGame : Nat) (w : World) :
    Except String (World × Nat) := do
  let w1 ← loopFrom (createBody env gameCount) gameCount 0 w
  let w2 := emit w1 (.tick .bar1)
  let totalAnswerTxs := gameCount * answersPerGame * 2
  let (w3, answerTxCount) ← loopFrom (submitBody env totalAnswerTxs answersPerGame) gameCount 0 (w2, 0)
  let w4 := emit w3 (.tick .bar2)
  let w5 ← loopFrom (endBody env) gameCount 0 w4
  return (w5, answerTxCount)

/-- The function `main`, run on the clock and random streams with an empty trace. -/
def main (env : Env) (gameCount answersPerGame : Nat) (now : Nat → Nat) (random : Nat → ℚ) :
    Except String (World × Nat) :=
  mainFrom env gameCount answersPerGame
    { now := now, nowCalls := 0, random := random, randomCalls := 0, trace := [] }

/-! ## Observations on a trace -/

/-- The records written to one file, in order. -/
def streamOf (h : Stream) : List Effect → List (PrivateKey × Tx)
  | [] => []
  | .write h1 wallet tx :: t =>
      if h1 = h then (wallet, tx) :: streamOf h t else streamOf h t
  | .tick _ :: t => streamOf h t

/-- The values of `answerTxCount`, counted from `n`, at which `bar2` is ticked. -/
def tickPoints : List Effect → Nat → List Nat
  | [], _ => []
  | .write .answers _ _ :: t, n => tickPoints t (n + 1)
  | .tick .bar2 :: t, n => n :: tickPoints t n
  | _ :: t, n => tickPoints t n

/-- The answer formula as the specification words it, on the seed. -/
def specCorrectAnswer (S : Nat) : Nat :=
  let num1 := S % 50 + 1
  let num2 := (S >>> 8) % 30 + 1
  let op := (S >>> 16) % 3
  if op = 0 then num1 + num2
  else if op = 1 then (if num1 ≤ num2 then num2 - num1 else num1 - num2)
  else (num1 % 12 + 1) * (num2 % 12 + 1)

/-! ## The answer oracle -/

theorem toNumber_of_lt {n : Nat} (h : n < 2 ^ 53) : toNumber n = .ok (n : Int) := by
  unfold toNumber
  rw [if_pos h]

theorem calculateCorrectAnswer_eq (H : Hashing) (gameId : Bytes32) (questionId : Nat) :
    calculateCorrectAnswer H gameId questionId =
      .ok (if (H.seedHash gameId questionId >>> 16) % 3 = 0 then
            (((H.seedHash gameId questionId % 50 + 1 : Nat) : Int)
              + (((H.seedHash gameId questionId >>> 8) % 30 + 1 : Nat) : Int))
          else if (H.seedHash gameId questionId >>> 16) % 3 = 1 then
            |(((H.seedHash gameId questionId % 50 + 1 : Nat) : Int)
              - (((H.seedHash gameId questionId >>> 8) % 30 + 1 : Nat) : Int))|
          else
            (Int.tmod ((H.seedHash gameId questionId % 50 + 1 : Nat) : Int) 12 + 1)
              * (Int.tmod (((H.seedHash gameId questionId >>> 8) % 30 + 1 : Nat) : Int) 12 + 1)) := by
  have h1 : H.seedHash gameId questionId % 50 + 1 < 2 ^ 53 := by omega
  have h2 : (H.seedHash gameId questionId >>> 8) % 30 + 1 < 2 ^ 53 := by omega
  have h3 : (H.seedHash gameId questionId >>> 16) % 3 < 2 ^ 53 := by omega
  unfold calculateCorrectAnswer
  simp only [toNumber_of_lt h1, toNumber_of_lt h2, toNumber_of_lt h3]
  simp only [bind, Except.bind, pure, Except.pure]
  by_cases c0 : (H.seedHash gameId questionId >>> 16) % 3 = 0
  · have c0i : (((H.seedHash gameId questionId >>> 16) % 3 : Nat) : Int) = 0 := by omega
    rw [if_pos c0, if_pos c0i]
  · have c0i : ¬ (((H.seedHash gameId questionId >>> 16) % 3 : Nat) : Int) = 0 := by omega
    rw [if_neg c0, if_neg c0i]
    by_cases c1 : (H.seedHash gameId questionId >>> 16) % 3 = 1
    · have c1i : (((H.seedHash gameId questionId >>> 16) % 3 : Nat) : Int) = 1 := by omega
      rw [if_pos c1, if_pos c1i]
    · have c1i : ¬ (((H.seedHash gameId questionId >>> 16) % 3 : Nat) : Int) = 1 := by omega
      rw [if_neg c1, if_neg c1i]
      rfl

theorem natCast_abs_sub (a b : Nat) :
    |(a : Int) - (b : Int)| = ((if a ≤ b then b - a else a - b : Nat) : Int) := by
  by_cases h : a ≤ b
  · rw [if_pos h, abs_sub_comm, abs_of_nonneg (by omega)]
    omega
  · rw [if_neg h, abs_of_nonneg (by omega)]
    omega

theorem tmod_natCast_twelve (a : Nat) : Int.tmod (a : Int) 12 = ((a % 12 : Nat) : Int) := by
  rw [Int.ofNat_tmod]
  rfl

/-- A hashing whose seed is the constant `S`, whatever the game and question. -/
def constSeed (S : Nat) : Hashing :=
  { gameHash := fun _ _ _ _ => 0, seedHash := fun _ _ => S }

theorem calculateCorrectAnswer_value (H : Hashing) (gameId : Bytes32) (questionId : Nat) :
    calculateCorrectAnswer H gameId questionId
      = .ok ((specCorrectAnswer (H.seedHash gameId questionId) : Nat) : Int) := by
  rw [calculateCorrectAnswer_eq]
  unfold specCorrectAnswer
  simp only []
  congr 1
  by_cases c0 : (H.seedHash gameId questionId >>> 16) % 3 = 0
  · rw [if_pos c0, if_pos c0]
    push_cast
    rfl
  · rw [if_neg c0, if_neg c0]
    by_cases c1 : (H.seedHash gameId questionId >>> 16) % 3 = 1
    · rw [if_pos c1, if_pos c1, natCast_abs_sub]
    · rw [if_neg c1, if_neg c1, tmod_natCast_twelve, tmod_natCast_twelve]
      push_cast
      rfl

/-- C1: `calculateCorrectAnswer` returns, without throwing, exactly the value the
specification's formula gives on the seed `keccak256 (encode [gameId, questionId])`:
`num1 + num2`, `|num1 - num2|` or `((num1 mod 12) + 1) * ((num2 mod 12) + 1)` by the
selector `(seed >> 16) mod 3`, with `num1 = seed mod 50 + 1`, `num2 = (seed >> 8) mod 30 + 1`.
The hash is arbitrary, so the seed ranges over every value. -/
theorem calculateCorrectAnswer_refines_spec (H : Hashing) (gameId : Bytes32) (questionId : Nat) :
    calculateCorrectAnswer H gameId questionId
      = .ok ((specCorrectAnswer (H.seedHash gameId questionId) : Nat) : Int) :=
  calculateCorrectAnswer_value H gameId questionId

/-- C2 (counterexample): on the seed 65566 the selector is 1 and `num1 = num2 = 17`, so
`calculateCorrectAnswer` returns 0, which is not a positive integer. -/
theorem calculateCorrectAnswer_zero_at_65566 :
    calculateCorrectAnswer (constSeed 65566) 0 0 = .ok 0 := by
  rw [calculateCorrectAnswer_eq]
  rfl

/-- C2 (amended): `calculateCorrectAnswer` always returns a non-negative integer; the
result is 0 exactly when the selector is 1 and `num1 = num2`, hence strictly positive
in every other case. -/
theorem calculateCorrectAnswer_nonneg (H : Hashing) (gameId : Bytes32) (questionId : Nat) :
    ∃ v : Int, calculateCorrectAnswer H gameId questionId = .ok v ∧ 0 ≤ v ∧
      (v = 0 ↔ ((H.seedHash gameId questionId >>> 16) % 3 = 1 ∧
        H.seedHash gameId questionId % 50 + 1
          = (H.seedHash gameId questionId >>> 8) % 30 + 1)) := by
  refine ⟨_, calculateCorrectAnswer_value H gameId questionId, ?_⟩
  unfold specCorrectAnswer
  simp only []
  by_cases c0 : (H.seedHash gameId questionId >>> 16) % 3 = 0
  · rw [if_pos c0]
    refine ⟨by omega, fun h => by omega, fun h => by omega⟩
  · rw [if_neg c0]
    by_cases c1 : (H.seedHash gameId questionId >>> 16) % 3 = 1
    · rw [if_pos c1]
      by_cases c2 : H.seedHash gameId questionId % 50 + 1
          ≤ (H.seedHash gameId questionId >>> 8) % 30 + 1
      · rw [if_pos c2]
        refine ⟨by omega, fun h => ⟨c1, by omega⟩, fun h => by omega⟩
      · rw [if_neg c2]
        refine ⟨by omega, fun h => by omega, fun h => by omega⟩
    · rw [if_neg c1]
      have hp : 0 < (H.seedHash gameId questionId % 50 + 1) % 12 + 1 := by omega
      have hq : 0 < ((H.seedHash gameId questionId >>> 8) % 30 + 1) % 12 + 1 := by omega
      have hpos : 0 < ((H.seedHash gameId questionId % 50 + 1) % 12 + 1)
          * (((H.seedHash gameId questionId >>> 8) % 30 + 1) % 12 + 1) := Nat.mul_pos hp hq
      refine ⟨by omega, fun h => by omega, fun h => absurd h.1 c1⟩

/-- C3 (counterexample): on the seed 7449 the selector is 0, `num1 = 50` and `num2 = 30`,
so `calculateCorrectAnswer` returns 80, outside the stated range 2..79. -/
theorem calculateCorrectAnswer_eighty_at_7449 :
    (7449 >>> 16) % 3 = 0 ∧ calculateCorrectAnswer (constSeed 7449) 0 0 = .ok 80 := by
  refine ⟨by decide, ?_⟩
  rw [calculateCorrectAnswer_eq]
  rfl

/-- C3 (amended): when the selector `(seed >> 16) mod 3` is 0, `calculateCorrectAnswer`
returns `num1 + num2`, and that value lies in the range 2..80 inclusive. -/
theorem calculateCorrectAnswer_sum_range (H : Hashing) (gameId : Bytes32) (questionId : Nat)
    (hop : (H.seedHash gameId questionId >>> 16) % 3 = 0) :
    calculateCorrectAnswer H gameId questionId
        = .ok (((H.seedHash gameId questionId % 50 + 1
            + ((H.seedHash gameId questionId >>> 8) % 30 + 1) : Nat) : Int)) ∧
      2 ≤ H.seedHash gameId questionId % 50 + 1
            + ((H.seedHash gameId questionId >>> 8) % 30 + 1) ∧
      H.seedHash gameId questionId % 50 + 1
            + ((H.seedHash gameId questionId >>> 8) % 30 + 1) ≤ 80 := by
  refine ⟨?_, by omega, by omega⟩
  rw [calculateCorrectAnswer_value]
  unfold specCorrectAnswer
  simp only []
  rw [if_pos hop]

theorem calculateCorrectAnswer_sum_range_witness :
    calculateCorrectAnswer (constSeed 5) 0 0 = .ok (((5 % 50 + 1 + ((5 >>> 8) % 30 + 1) : Nat) : Int)) ∧
      2 ≤ 5 % 50 + 1 + ((5 >>> 8) % 30 + 1) ∧ 5 % 50 + 1 + ((5 >>> 8) % 30 + 1) ≤ 80 :=
  calculateCorrectAnswer_sum_range (constSeed 5) 0 0 (by decide)

/-- C8: for every account pool size `A ≥ 2` and every game index `i`, the two player
account indices `(i * 2) mod A` and `(i * 2 + 1) mod A` are different. -/
theorem player_indices_distinct (A i : Nat) (hA : 2 ≤ A) :
    player1Index i A ≠ player2Index i A := by
  unfold player1Index player2Index
  intro h
  have h1 : (i * 2 + 1) % A = ((i * 2) % A + 1) % A := by
    rw [Nat.add_mod, Nat.mod_eq_of_lt (show 1 < A by omega)]
  have hlt : (i * 2) % A < A := Nat.mod_lt _ (by omega)
  by_cases hc : (i * 2) % A + 1 < A
  · rw [Nat.mod_eq_of_lt hc] at h1
    omega
  · have he : (i * 2) % A + 1 = A := by omega
    rw [he, Nat.mod_self] at h1
    omega

theorem player_indices_distinct_witness :
    (2 ≤ 10) ∧ player1Index 999 10 ≠ player2Index 999 10 :=
  ⟨by decide, player_indices_distinct 10 999 (by decide)⟩

/-! ## Double arithmetic -/

theorem roundHalfEven_le (n : ℚ) : (roundHalfEven n : ℚ) ≤ n + 1 / 2 := by
  have h1 : (⌊n⌋ : ℚ) ≤ n := Int.floor_le n
  unfold roundHalfEven
  split_ifs with a b c
  · linarith
  · push_cast; linarith
  · linarith
  · push_cast
    have : n - ⌊n⌋ = 1 / 2 := le_antisymm (not_lt.mp b) (not_lt.mp a)
    linarith

theorem roundHalfEven_nonneg (n : ℚ) (h : 0 ≤ n) : 0 ≤ roundHalfEven n := by
  have h1 : 0 ≤ ⌊n⌋ := Int.floor_nonneg.mpr h
  unfold roundHalfEven
  split_ifs <;> omega

theorem quantum_pos (x : ℚ) : 0 < quantum x := by
  unfold quantum
  positivity

theorem roundDouble_le (x : ℚ) : roundDouble x ≤ x + quantum x / 2 := by
  unfold roundDouble
  have hq := quantum_pos x
  have h := roundHalfEven_le (x / quantum x)
  calc (roundHalfEven (x / quantum x) : ℚ) * quantum x
      ≤ (x / quantum x + 1 / 2) * quantum x := mul_le_mul_of_nonneg_right h hq.le
    _ = x + quantum x / 2 := by
      field_simp
      ring

theorem roundDouble_nonneg (x : ℚ) (h : 0 ≤ x) : 0 ≤ roundDouble x := by
  unfold roundDouble
  have hq := quantum_pos x
  have : 0 ≤ roundHalfEven (x / quantum x) := roundHalfEven_nonneg _ (div_nonneg h hq.le)
  have : (0 : ℚ) ≤ (roundHalfEven (x / quantum x) : ℚ) := by exact_mod_cast this
  positivity

theorem log_lt_seven (x : ℚ) (h : x < 128) : Int.log 2 x < 7 := by
  rcases le_or_lt x 0 with h0 | h0
  · rw [Int.log_of_right_le_zero 2 h0]; decide
  · rw [← Int.lt_zpow_iff_log_lt (by decide) h0]
    norm_num
    exact h

theorem quantum_le (x : ℚ) (h : x < 128) : quantum x ≤ (2 : ℚ) ^ (-46 : ℤ) := by
  unfold quantum
  apply zpow_le_zpow_right₀ (by norm_num)
  have := log_lt_seven x h
  omega

theorem roundDouble_lt_hundred (x : ℚ) (h : x ≤ 100 - 100 / 2 ^ 53) : roundDouble x < 100 := by
  have h1 := roundDouble_le x
  have h2 := quantum_le x (by
    have : (100 : ℚ) - 100 / 2 ^ 53 < 128 := by norm_num
    linarith)
  have h3 : (2 : ℚ) ^ (-46 : ℤ) = 1 / 2 ^ 46 := by
    rw [zpow_neg, one_div]; norm_cast
  rw [h3] at h2
  have h4 : (100 : ℚ) - 100 / 2 ^ 53 + 1 / 2 ^ 46 / 2 < 100 := by norm_num
  linarith

theorem isDouble_lt_one (x : ℚ) (hd : IsDouble x) (h : x < 1) : x ≤ 1 - 1 / 2 ^ 53 := by
  obtain ⟨m, e, hm, _, _, rfl⟩ := hd
  have hmq : (m : ℚ) ≤ 2 ^ 53 - 1 := by
    have : m ≤ 2 ^ 53 - 1 := by omega
    have : (m : ℚ) ≤ ((2 ^ 53 - 1 : ℕ) : ℚ) := by exact_mod_cast this
    norm_num at this ⊢
    exact this
  rcases lt_or_le e (-53) with he | he
  · have hp : (2 : ℚ) ^ e ≤ (2 : ℚ) ^ (-54 : ℤ) := zpow_le_zpow_right₀ (by norm_num) (by omega)
    have h3 : (2 : ℚ) ^ (-54 : ℤ) = 1 / 2 ^ 54 := by
      rw [zpow_neg, one_div]; norm_cast
    rw [h3] at hp
    have hm0 : (0 : ℚ) ≤ m := Nat.cast_nonneg m
    have : (m : ℚ) * 2 ^ e ≤ (2 ^ 53 - 1) * (1 / 2 ^ 54) :=
      mul_le_mul hmq hp (by positivity) (by norm_num)
    have h5 : ((2 : ℚ) ^ 53 - 1) * (1 / 2 ^ 54) ≤ 1 - 1 / 2 ^ 53 := by norm_num
    linarith
  · obtain ⟨k, hk⟩ : ∃ k : ℕ, e + 53 = k := ⟨(e + 53).toNat, by omega⟩
    have he2 : e = (k : ℤ) - 53 := by omega
    have hx : (m : ℚ) * 2 ^ e = ((m * 2 ^ k : ℕ) : ℚ) / 2 ^ 53 := by
      rw [he2, zpow_sub₀ (by norm_num), zpow_natCast]
      push_cast
      rw [mul_div_assoc]
      norm_cast
    rw [hx] at h ⊢
    have hN : ((m * 2 ^ k : ℕ) : ℚ) < 2 ^ 53 := by
      rw [div_lt_one (by positivity)] at h
      exact h
    have hN2 : m * 2 ^ k < 2 ^ 53 := by exact_mod_cast hN
    have hN3 : m * 2 ^ k ≤ 2 ^ 53 - 1 := by omega
    have hN4 : ((m * 2 ^ k : ℕ) : ℚ) ≤ 2 ^ 53 - 1 := by
      have : ((m * 2 ^ k : ℕ) : ℚ) ≤ ((2 ^ 53 - 1 : ℕ) : ℚ) := by exact_mod_cast hN3
      norm_num at this ⊢
      exact this
    rw [div_le_iff₀ (by positivity)]
    have : ((1 : ℚ) - 1 / 2 ^ 53) * 2 ^ 53 = 2 ^ 53 - 1 := by norm_num
    rw [this]
    exact hN4

theorem log_eq_of_bounds (x : ℚ) (e : ℤ) (h1 : (2 : ℚ) ^ e ≤ x) (h2 : x < (2 : ℚ) ^ (e + 1)) :
    Int.log 2 x = e := by
  have hx : 0 < x := lt_of_lt_of_le (by positivity) h1
  have a : e ≤ Int.log 2 x := (Int.zpow_le_iff_le_log (by decide) hx).mp (by exact_mod_cast h1)
  have b : Int.log 2 x < e + 1 := (Int.lt_zpow_iff_log_lt (by decide) hx).mp (by exact_mod_cast h2)
  omega

theorem roundDouble_of_bounds (x : ℚ) (e : ℤ) (h1 : (2 : ℚ) ^ e ≤ x) (h2 : x < (2 : ℚ) ^ (e + 1))
    (he : -1022 ≤ e) :
    roundDouble x = (roundHalfEven (x / (2 : ℚ) ^ (e - 52)) : ℚ) * (2 : ℚ) ^ (e - 52) := by
  unfold roundDouble quantum
  rw [log_eq_of_bounds x e h1 h2, max_eq_left (by omega)]

theorem roundHalfEven_down (n : ℚ) (k : ℤ) (h1 : (k : ℚ) ≤ n) (h2 : n < k + 1 / 2) :
    roundHalfEven n = k := by
  have hf : ⌊n⌋ = k := Int.floor_eq_iff.mpr ⟨h1, by linarith⟩
  unfold roundHalfEven
  rw [hf, if_pos (by linarith)]

theorem roundHalfEven_up (n : ℚ) (k : ℤ) (h1 : (k : ℚ) + 1 / 2 < n) (h2 : n < k + 1) :
    roundHalfEven n = k + 1 := by
  have hf : ⌊n⌋ = k := Int.floor_eq_iff.mpr ⟨by linarith, h2⟩
  unfold roundHalfEven
  rw [hf, if_neg (by linarith), if_pos (by linarith)]

theorem roundDouble_three_tenths : roundDouble (3 / 10) = 5404319552844595 / 2 ^ 54 := by
  rw [roundDouble_of_bounds (3 / 10) (-2) (by norm_num) (by norm_num) (by decide),
    roundHalfEven_down _ 5404319552844595 (by norm_num) (by norm_num)]
  norm_num

theorem roundDouble_product_099 : roundDouble (4458563631096791 / 2 ^ 52 * 100) = 99 := by
  rw [roundDouble_of_bounds _ 6 (by norm_num) (by norm_num) (by decide),
    roundHalfEven_up _ 6966505673588735 (by norm_num) (by norm_num)]
  norm_num

theorem roundDouble_25 : roundDouble (1 / 4 * 100) = 25 := by
  rw [roundDouble_of_bounds _ 4 (by norm_num) (by norm_num) (by decide),
    roundHalfEven_down _ (25 * 2 ^ 48) (by norm_num) (by norm_num)]
  norm_num

/-! ## The simulated answer -/

/-- A world whose random source yields 1/2 and then 1/4, with the clock at 1000. -/
def sampleWorld : World :=
  { now := fun k => 1000 + k, nowCalls := 0,
    random := fun k => if k = 0 then 1 / 2 else 1 / 4, randomCalls := 0, trace := [] }

/-- A world whose random source yields 1/2 and then the double written 0.99. -/
def roundingWorld : World :=
  { now := fun k => 1000 + k, nowCalls := 0,
    random := fun k => if k = 0 then 1 / 2 else 4458563631096791 / 2 ^ 52,
    randomCalls := 0, trace := [] }

/-- A world whose random source yields the double written 0.3 and then 1/4. -/
def thresholdWorld : World :=
  { now := fun k => 1000 + k, nowCalls := 0,
    random := fun k => if k = 0 then 5404319552844595 / 2 ^ 54 else 1 / 4,
    randomCalls := 0, trace := [] }

/-- C9 (counterexample): with draws `r1 = 1/2` and `r2 = 4458563631096791 / 2 ^ 52` (the
double 0.99) the double product rounds up to 99 and `generateRandomAnswer` returns 100,
while `floor (r2 * 100) + 1` is 99; and with `r1 = 5404319552844595 / 2 ^ 54` (the double
0.3), which is below 3/10, `generateRandomAnswer` draws a second time and returns 26, not
the result 80 of `calculateCorrectAnswer`. -/
theorem generateRandomAnswer_not_exact :
    ((∃ w1 : World, generateRandomAnswer (constSeed 7449) 1 0 roundingWorld = .ok (100, w1)) ∧
      ¬ ((1 / 2 : ℚ) < 3 / 10) ∧
      ⌊(4458563631096791 / 2 ^ 52 : ℚ) * 100⌋ + 1 = 99) ∧
    ((5404319552844595 / 2 ^ 54 : ℚ) < 3 / 10 ∧
      calculateCorrectAnswer (constSeed 7449) 1 0 = .ok 80 ∧
      ∃ w1 : World, generateRandomAnswer (constSeed 7449) 1 0 thresholdWorld = .ok (26, w1) ∧
        w1.randomCalls = 2) := by
  refine ⟨⟨?_, by norm_num, ?_⟩, by norm_num, ?_, ?_⟩
  · refine ⟨(mathRandom (mathRandom roundingWorld).2).2, ?_⟩
    unfold generateRandomAnswer
    have h1 : ¬ ((mathRandom roundingWorld).1 < roundDouble (3 / 10)) := by
      rw [roundDouble_three_tenths]
      simp only [mathRandom, roundingWorld, if_true]
      norm_num
    have h2 : (mathRandom (mathRandom roundingWorld).2).1 = 4458563631096791 / 2 ^ 52 := by
      simp [mathRandom, roundingWorld]
    simp only [h1, if_false, h2, roundDouble_product_099]
    rfl
  · rw [Int.floor_eq_iff.mpr (show ((98 : ℤ) : ℚ) ≤ 4458563631096791 / 2 ^ 52 * 100 ∧
      (4458563631096791 / 2 ^ 52 * 100 : ℚ) < ((98 : ℤ) : ℚ) + 1 from ⟨by norm_num, by norm_num⟩)]
    rfl
  · rw [calculateCorrectAnswer_eq]
    rfl
  · refine ⟨(mathRandom (mathRandom thresholdWorld).2).2, ?_, rfl⟩
    unfold generateRandomAnswer
    have h1 : ¬ ((mathRandom thresholdWorld).1 < roundDouble (3 / 10)) := by
      rw [roundDouble_three_tenths]
      simp only [mathRandom, thresholdWorld, if_true]
      norm_num
    have h2 : (mathRandom (mathRandom thresholdWorld).2).1 = 1 / 4 := by
      simp [mathRandom, thresholdWorld]
    simp only [h1, if_false, h2, roundDouble_25]
    rfl

/-- C9 (amended): the literal `0.3` is the double `5404319552844595 / 2 ^ 54`. With the two
pending draws `r1`, `r2`, `r2` a double in `[0,1)`, `generateRandomAnswer` returns a value;
it takes the correct-answer branch (one draw consumed, the result of
`calculateCorrectAnswer`) if and only if `r1` is below the double `0.3`, and otherwise
(two draws consumed) returns `floor (fl (r2 * 100)) + 1`, `fl` rounding the exact product
to the nearest double, an integer in 1..100. -/
theorem generateRandomAnswer_spec (H : Hashing) (gameId : Bytes32) (questionId : Nat)
    (w : World) (hd : IsDouble (w.random (w.randomCalls + 1)))
    (h1 : w.random (w.randomCalls + 1) < 1) :
    roundDouble (3 / 10) = 5404319552844595 / 2 ^ 54 ∧
    ∃ (v : Int) (w1 : World), generateRandomAnswer H gameId questionId w = .ok (v, w1) ∧
      (w1.randomCalls = w.randomCalls + 1 ↔
        w.random w.randomCalls < 5404319552844595 / 2 ^ 54) ∧
      (if w.random w.randomCalls < 5404319552844595 / 2 ^ 54 then
          calculateCorrectAnswer H gameId questionId = .ok v ∧
            w1.randomCalls = w.randomCalls + 1
        else
          v = ⌊roundDouble (w.random (w.randomCalls + 1) * 100)⌋ + 1 ∧ 1 ≤ v ∧ v ≤ 100 ∧
            w1.randomCalls = w.randomCalls + 2) := by
  refine ⟨roundDouble_three_tenths, ?_⟩
  by_cases hr : w.random w.randomCalls < 5404319552844595 / 2 ^ 54
  · refine ⟨((specCorrectAnswer (H.seedHash gameId questionId) : Nat) : Int),
      (mathRandom w).2, ?_, ?_, ?_⟩
    · unfold generateRandomAnswer
      simp only [mathRandom, roundDouble_three_tenths, hr, if_true, calculateCorrectAnswer_value,
        bind, Except.bind, pure, Except.pure]
    · simp [mathRandom, hr]
    · rw [if_pos hr]
      exact ⟨calculateCorrectAnswer_value H gameId questionId, rfl⟩
  · refine ⟨⌊roundDouble (w.random (w.randomCalls + 1) * 100)⌋ + 1,
      (mathRandom (mathRandom w).2).2, ?_, ?_, ?_⟩
    · unfold generateRandomAnswer
      simp only [mathRandom, roundDouble_three_tenths, hr, if_false]
    · simp [mathRandom, hr]
    · rw [if_neg hr]
      have hr0 : 0 ≤ w.random (w.randomCalls + 1) := by
        obtain ⟨m, e, _, _, _, hx⟩ := hd
        rw [hx]
        positivity
      have hle := isDouble_lt_one _ hd h1
      have hlo : (0 : Int) ≤ ⌊roundDouble (w.random (w.randomCalls + 1) * 100)⌋ :=
        Int.floor_nonneg.mpr (roundDouble_nonneg _ (by positivity))
      have hhi : ⌊roundDouble (w.random (w.randomCalls + 1) * 100)⌋ < 100 := by
        rw [Int.floor_lt]
        push_cast
        apply roundDouble_lt_hundred
        linarith
      exact ⟨rfl, by omega, by omega, rfl⟩

theorem generateRandomAnswer_spec_witness :
    roundDouble (3 / 10) = 5404319552844595 / 2 ^ 54 ∧
    ∃ (v : Int) (w1 : World), generateRandomAnswer (constSeed 7449) 1 0 sampleWorld = .ok (v, w1) ∧
      (w1.randomCalls = sampleWorld.randomCalls + 1 ↔
        sampleWorld.random sampleWorld.randomCalls < 5404319552844595 / 2 ^ 54) ∧
      (if sampleWorld.random sampleWorld.randomCalls < 5404319552844595 / 2 ^ 54 then
          calculateCorrectAnswer (constSeed 7449) 1 0 = .ok v ∧
            w1.randomCalls = sampleWorld.randomCalls + 1
        else
          v = ⌊roundDouble (sampleWorld.random (sampleWorld.randomCalls + 1) * 100)⌋ + 1 ∧
            1 ≤ v ∧ v ≤ 100 ∧ w1.randomCalls = sampleWorld.randomCalls + 2) :=
  generateRandomAnswer_spec (constSeed 7449) 1 0 sampleWorld
    ⟨1, -2, by norm_num, by decide, by decide, by simp [sampleWorld]; norm_num⟩
    (by simp [sampleWorld]; norm_num)

/-! ## Concatenated blocks, the shape of a loop's output -/

/-- The concatenation `f i ++ f (i + 1) ++ ... ++ f (i + k - 1)`. -/
def blocks {α : Type} (f : Nat → List α) : Nat → Nat → List α
  | 0, _ => []
  | k + 1, i => f i ++ blocks f k (i + 1)

theorem blocks_congr {α : Type} (f g : Nat → List α) :
    ∀ (k i : Nat), (∀ j, i ≤ j → j < i + k → f j = g j) → blocks f k i = blocks g k i := by
  intro k
  induction k with
  | zero => intro i _; rfl
  | succ k ih =>
    intro i h
    show f i ++ blocks f k (i + 1) = g i ++ blocks g k (i + 1)
    rw [h i (Nat.le_refl i) (by omega), ih (i + 1) (fun j h1 h2 => h j (by omega) (by omega))]

theorem blocks_add {α : Type} (f : Nat → List α) :
    ∀ (a b i : Nat), blocks f (a + b) i = blocks f a i ++ blocks f b (i + a) := by
  intro a
  induction a with
  | zero => intro b i; simp [blocks]
  | succ a ih =>
    intro b i
    have e : a + 1 + b = (a + b) + 1 := by omega
    rw [e]
    show f i ++ blocks f (a + b) (i + 1) = (f i ++ blocks f a (i + 1)) ++ blocks f b (i + (a + 1))
    rw [ih b (i + 1), List.append_assoc]
    have e2 : i + 1 + a = i + (a + 1) := by omega
    rw [e2]

theorem blocks_shift {α : Type} :
    ∀ (k : Nat) (f : Nat → List α) (i : Nat), blocks f k i = blocks (fun j => f (i + j)) k 0 := by
  intro k
  induction k with
  | zero => intro f i; rfl
  | succ k ih =>
    intro f i
    show f i ++ blocks f k (i + 1) = f (i + 0) ++ blocks (fun j => f (i + j)) k (0 + 1)
    rw [ih f (i + 1), ih (fun j => f (i + j)) (0 + 1)]
    have e : (fun j => f (i + 1 + j)) = (fun j => f (i + (0 + 1 + j))) := by
      funext j
      congr 1
      omega
    rw [e]
    rfl

theorem blocks_nil {α : Type} (f : Nat → List α) (h : ∀ j, f j = []) :
    ∀ (k i : Nat), blocks f k i = [] := by
  intro k
  induction k with
  | zero => intro i; rfl
  | succ k ih =>
    intro i
    show f i ++ blocks f k (i + 1) = []
    rw [h i, ih (i + 1)]
    rfl

theorem blocks_length {α : Type} (f : Nat → List α) (m : Nat) (h : ∀ j, (f j).length = m) :
    ∀ (k i : Nat), (blocks f k i).length = k * m := by
  intro k
  induction k with
  | zero => intro i; simp [blocks]
  | succ k ih =>
    intro i
    show (f i ++ blocks f k (i + 1)).length = (k + 1) * m
    rw [List.length_append, h i, ih (i + 1), Nat.succ_mul]
    omega

theorem blocks_getElem? {α : Type} (f : Nat → List α) (m : Nat) (hm : 0 < m)
    (h : ∀ j, (f j).length = m) :
    ∀ (k i n : Nat), n < k * m → (blocks f k i)[n]? = (f (i + n / m))[n % m]? := by
  intro k
  induction k with
  | zero => intro i n hn; simp at hn
  | succ k ih =>
    intro i n hn
    show (f i ++ blocks f k (i + 1))[n]? = (f (i + n / m))[n % m]?
    by_cases hlt : n < m
    · rw [List.getElem?_append_left (by rw [h i]; exact hlt), Nat.div_eq_of_lt hlt,
        Nat.mod_eq_of_lt hlt]
      rfl
    · have hge : m ≤ n := Nat.le_of_not_lt hlt
      rw [List.getElem?_append_right (by rw [h i]; exact hge), h i,
        ih (i + 1) (n - m) (by rw [Nat.succ_mul] at hn; omega)]
      have hd : n / m = (n - m) / m + 1 := by
        rw [← Nat.sub_add_cancel hge] at *
        rw [Nat.add_sub_cancel, Nat.add_div_right _ hm]
      have hmod : n % m = (n - m) % m := by
        conv_lhs => rw [← Nat.sub_add_cancel hge]
        rw [Nat.add_mod_right]
      rw [hd, hmod]
      have e : i + 1 + (n - m) / m = i + ((n - m) / m + 1) := by omega
      rw [e]

theorem blocks_map {α β : Type} (g : List α → List β) (hnil : g [] = [])
    (happ : ∀ a b, g (a ++ b) = g a ++ g b) (f : Nat → List α) :
    ∀ (k i : Nat), g (blocks f k i) = blocks (fun j => g (f j)) k i := by
  intro k
  induction k with
  | zero => intro i; exact hnil
  | succ k ih =>
    intro i
    show g (f i ++ blocks f k (i + 1)) = g (f i) ++ blocks (fun j => g (f j)) k (i + 1)
    rw [happ, ih (i + 1)]

theorem blocks_flatten {α : Type} (g : Nat → Nat → List α) (Q : Nat) (hQ : 0 < Q) :
    ∀ (k s : Nat), blocks (fun i => blocks (g i) Q 0) k s
      = blocks (fun j => g (j / Q) (j % Q)) (k * Q) (s * Q) := by
  intro k
  induction k with
  | zero => intro s; simp [blocks]
  | succ k ih =>
    intro s
    show blocks (g s) Q 0 ++ blocks (fun i => blocks (g i) Q 0) k (s + 1) = _
    have e : (k + 1) * Q = Q + k * Q := by rw [Nat.succ_mul]; omega
    rw [e, blocks_add, ih (s + 1)]
    have e2 : (s + 1) * Q = s * Q + Q := by rw [Nat.succ_mul]
    rw [e2]
    congr 1
    rw [blocks_shift Q (fun j => g (j / Q) (j % Q)) (s * Q)]
    apply blocks_congr
    intro j _ hj
    have hj2 : j < Q := by omega
    show g s j = g ((s * Q + j) / Q) ((s * Q + j) % Q)
    have h1 : (s * Q + j) / Q = s := by
      rw [Nat.add_comm, Nat.add_mul_div_right _ _ hQ, Nat.div_eq_of_lt hj2]
      omega
    have h2 : (s * Q + j) % Q = j := by
      rw [Nat.add_comm, Nat.add_mul_mod_self_right, Nat.mod_eq_of_lt hj2]
    rw [h1, h2]

/-! ## The effects of each loop body -/

/-- The entry `l[k]`, or 0 outside the list: used only at indices reduced modulo the length. -/
def entry (l : List Nat) (k : Nat) : Nat := (l[k]?).getD 0

theorem getElem?_mod_length (l : List Nat) (k : Nat) (h : 0 < l.length) :
    l[k % l.length]? = some (entry l (k % l.length)) := by
  unfold entry
  rw [List.getElem?_eq_getElem (Nat.mod_lt k h)]
  rfl

theorem addressAt_mod (accounts : List Address) (k : Nat) (h : 0 < accounts.length) :
    addressAt accounts (k % accounts.length) = .ok (entry accounts (k % accounts.length)) := by
  unfold addressAt
  rw [getElem?_mod_length accounts k h]

theorem newWallet_mod (keys : List PrivateKey) (k : Nat) (h : 0 < keys.length) :
    newWallet keys (k % keys.length) = .ok (entry keys (k % keys.length)) := by
  unfold newWallet
  rw [getElem?_mod_length keys k h]

/-- The effects of iteration `i` of the create loop. -/
def createEffects (env : Env) (gameCount i : Nat) : List Effect :=
  .write .create (entry env.keys (player1Index i env.accounts.length % env.keys.length))
      (.createGame (entry env.accounts (player2Index i env.accounts.length)))
    :: (if 0 < i ∧ env.bar1Due gameCount i = true then [.tick .bar1] else [])

/-- The identifier `generateGameId` returns for game `i` when the clock reads `t`. -/
def gameIdAt (env : Env) (t i : Nat) : Bytes32 :=
  env.hashing.gameHash (t + i) (entry env.accounts (i * 2 % env.accounts.length))
    (entry env.accounts ((i * 2 + 1) % env.accounts.length)) i

/-- The effects of iteration `i` of the end loop, the clock having been read `c` times
before the loop. -/
def endEffects (env : Env) (now : Nat → Nat) (c i : Nat) : List Effect :=
  [.write .finish (entry env.keys (i % env.keys.length)) (.forceEndGame (gameIdAt env (now (c + i)) i))]

/-- The effects of one question of game `i`, answers erased, `n` being `answerTxCount`
on entry. -/
def questionEffects (env : Env) (totalAnswerTxs i : Nat) (gameId : Bytes32) (n questionId : Nat) :
    List Effect :=
  .write .answers (entry env.keys (player1Index i env.accounts.length % env.keys.length))
      (.submitAnswer gameId questionId 0)
    :: .write .answers (entry env.keys (player2Index i env.accounts.length % env.keys.length))
      (.submitAnswer gameId questionId 0)
    :: (if (n + 2) % max 1 (totalAnswerTxs / 100) = 0 then [.tick .bar2] else [])

/-- Replaces the answer of a `submitAnswer` payload by 0. -/
def eraseTx : Tx → Tx
  | .submitAnswer g q _ => .submitAnswer g q 0
  | t => t

/-- Replaces the answer carried by an effect by 0. -/
def eraseAnswer : Effect → Effect
  | .write h wallet tx => .write h wallet (eraseTx tx)
  | e => e

theorem createBody_ok (env : Env) (gameCount i : Nat) (w : World)
    (hA : 0 < env.accounts.length) (hK : 0 < env.keys.length) :
    createBody env gameCount i w
      = .ok { w with trace := w.trace ++ createEffects env gameCount i } := by
  unfold createBody createEffects
  simp only [newWallet_mod env.keys _ hK]
  unfold player2Index
  simp only [addressAt_mod env.accounts _ hA, bind, Except.bind, pure, Except.pure, emit]
  by_cases hc : 0 < i ∧ env.bar1Due gameCount i = true
  · simp only [if_pos hc, List.append_assoc, List.singleton_append]
  · simp only [if_neg hc, List.append_nil]

theorem generateGameId_ok (env : Env) (i : Nat) (w : World) (hA : 0 < env.accounts.length) :
    generateGameId env.hashing i env.accounts w
      = .ok (gameIdAt env (w.now w.nowCalls) i, { w with nowCalls := w.nowCalls + 1 }) := by
  unfold generateGameId gameIdAt
  simp only [dateNow, addressAt_mod env.accounts _ hA, bind, Except.bind, pure, Except.pure]

theorem endBody_ok (env : Env) (i : Nat) (w : World)
    (hA : 0 < env.accounts.length) (hK : 0 < env.keys.length) :
    endBody env i w
      = .ok { w with nowCalls := w.nowCalls + 1,
                     trace := w.trace ++ [.write .finish (entry env.keys (i % env.keys.length))
                       (.forceEndGame (gameIdAt env (w.now w.nowCalls) i))] } := by
  unfold endBody
  simp only [generateGameId_ok env i w hA, newWallet_mod env.keys _ hK, bind, Except.bind, pure,
    Except.pure, emit]

theorem generateRandomAnswer_ok (H : Hashing) (gameId : Bytes32) (questionId : Nat) (w : World) :
    ∃ (v : Int) (r : Nat), generateRandomAnswer H gameId questionId w
      = .ok (v, { w with randomCalls := r }) := by
  by_cases hr : w.random w.randomCalls < roundDouble (3 / 10)
  · refine ⟨((specCorrectAnswer (H.seedHash gameId questionId) : Nat) : Int),
      w.randomCalls + 1, ?_⟩
    unfold generateRandomAnswer
    simp only [mathRandom, hr, if_true, calculateCorrectAnswer_value, bind, Except.bind,
      pure, Except.pure]
  · refine ⟨⌊roundDouble (w.random (w.randomCalls + 1) * 100)⌋ + 1, w.randomCalls + 1 + 1, ?_⟩
    unfold generateRandomAnswer
    simp only [mathRandom, hr, if_false]

theorem questionBody_ok (env : Env) (totalAnswerTxs i : Nat) (gameId : Bytes32)
    (questionId : Nat) (w : World) (n : Nat) (hK : 0 < env.keys.length) :
    ∃ (r : Nat) (T : List Effect),
      questionBody env totalAnswerTxs i gameId questionId (w, n)
        = .ok ({ w with randomCalls := r, trace := w.trace ++ T }, n + 2) ∧
      T.map eraseAnswer = questionEffects env totalAnswerTxs i gameId n questionId := by
  obtain ⟨v1, r1, h1⟩ := generateRandomAnswer_ok env.hashing gameId questionId w
  obtain ⟨v2, r2, h2⟩ := generateRandomAnswer_ok env.hashing gameId questionId
    (emit { w with randomCalls := r1 }
      (.write .answers (entry env.keys (player1Index i env.accounts.length % env.keys.length))
        (.submitAnswer gameId questionId v1)))
  simp only [emit] at h2
  by_cases hc : (n + 2) % max 1 (totalAnswerTxs / 100) = 0
  · refine ⟨r2, [.write .answers
        (entry env.keys (player1Index i env.accounts.length % env.keys.length))
        (.submitAnswer gameId questionId v1),
      .write .answers (entry env.keys (player2Index i env.accounts.length % env.keys.length))
        (.submitAnswer gameId questionId v2), .tick .bar2], ?_, ?_⟩
    · unfold questionBody
      simp only [newWallet_mod env.keys _ hK, h1, h2, bind, Except.bind, pure, Except.pure, emit,
        if_pos hc, List.append_assoc, List.singleton_append]
      rfl
    · simp only [questionEffects, if_pos hc, List.map, eraseAnswer, eraseTx]
  · refine ⟨r2, [.write .answers
        (entry env.keys (player1Index i env.accounts.length % env.keys.length))
        (.submitAnswer gameId questionId v1),
      .write .answers (entry env.keys (player2Index i env.accounts.length % env.keys.length))
        (.submitAnswer gameId questionId v2)], ?_, ?_⟩
    · unfold questionBody
      simp only [newWallet_mod env.keys _ hK, h1, h2, bind, Except.bind, pure, Except.pure, emit,
        if_neg hc, List.append_assoc, List.singleton_append]
    · simp only [questionEffects, if_neg hc, List.map, eraseAnswer, eraseTx]

/-! ## The effects of each loop -/

theorem loopFrom_create (env : Env) (gameCount : Nat)
    (hA : 0 < env.accounts.length) (hK : 0 < env.keys.length) :
    ∀ (k i : Nat) (w : World), loopFrom (createBody env gameCount) k i w
      = .ok { w with trace := w.trace ++ blocks (createEffects env gameCount) k i } := by
  intro k
  induction k with
  | zero => intro i w; simp [loopFrom, blocks]
  | succ k ih =>
    intro i w
    show (createBody env gameCount i w >>= loopFrom (createBody env gameCount) k (i + 1)) = _
    rw [createBody_ok env gameCount i w hA hK]
    show loopFrom (createBody env gameCount) k (i + 1) _ = _
    rw [ih]
    simp only [blocks, List.append_assoc]

theorem loopFrom_end (env : Env) (hA : 0 < env.accounts.length) (hK : 0 < env.keys.length)
    (c : Nat) :
    ∀ (k i : Nat) (w : World), w.nowCalls = c + i → loopFrom (endBody env) k i w
      = .ok { w with nowCalls := c + i + k,
                     trace := w.trace ++ blocks (endEffects env w.now c) k i } := by
  intro k
  induction k with
  | zero =>
    intro i w hw
    simp only [loopFrom, blocks, List.append_nil, Nat.add_zero]
    rw [← hw]
  | succ k ih =>
    intro i w hw
    show (endBody env i w >>= loopFrom (endBody env) k (i + 1)) = _
    rw [endBody_ok env i w hA hK]
    show loopFrom (endBody env) k (i + 1) _ = _
    rw [ih (i + 1) _ (by show w.nowCalls + 1 = c + (i + 1); omega)]
    simp only [blocks, endEffects, List.append_assoc, List.singleton_append, hw]
    have e : c + (i + 1) + k = c + i + (k + 1) := by omega
    rw [e]

theorem loopFrom_question (env : Env) (totalAnswerTxs g : Nat) (gameId : Bytes32)
    (hK : 0 < env.keys.length) (n0 : Nat) :
    ∀ (k q : Nat) (w : World),
      ∃ (r : Nat) (T : List Effect),
        loopFrom (questionBody env totalAnswerTxs g gameId) k q (w, n0 + 2 * q)
          = .ok ({ w with randomCalls := r, trace := w.trace ++ T }, n0 + 2 * (q + k)) ∧
        T.map eraseAnswer
          = blocks (fun j => questionEffects env totalAnswerTxs g gameId (n0 + 2 * j) j) k q := by
  intro k
  induction k with
  | zero =>
    intro q w
    exact ⟨w.randomCalls, [], by simp [loopFrom], rfl⟩
  | succ k ih =>
    intro q w
    obtain ⟨r1, T1, h1, e1⟩ :=
      questionBody_ok env totalAnswerTxs g gameId q w (n0 + 2 * q) hK
    obtain ⟨r2, T2, h2, e2⟩ := ih (q + 1) { w with randomCalls := r1, trace := w.trace ++ T1 }
    refine ⟨r2, T1 ++ T2, ?_, ?_⟩
    · show (questionBody env totalAnswerTxs g gameId q (w, n0 + 2 * q)
          >>= loopFrom (questionBody env totalAnswerTxs g gameId) k (q + 1)) = _
      rw [h1]
      show loopFrom (questionBody env totalAnswerTxs g gameId) k (q + 1) _ = _
      have e : n0 + 2 * q + 2 = n0 + 2 * (q + 1) := by omega
      rw [e, h2]
      simp only [List.append_assoc]
      have e3 : n0 + 2 * (q + 1 + k) = n0 + 2 * (q + (k + 1)) := by omega
      rw [e3]
    · rw [List.map_append, e1, e2]
      rfl

/-- The effects of game `i` of the submit loop, answers erased: `c` clock reads before
the loop, `Q` questions per game. -/
def submitEffects (env : Env) (totalAnswerTxs Q : Nat) (now : Nat → Nat) (c i : Nat) :
    List Effect :=
  blocks (fun j => questionEffects env totalAnswerTxs i (gameIdAt env (now (c + i)) i)
    (2 * Q * i + 2 * j) j) Q 0

theorem submitBody_ok (env : Env) (totalAnswerTxs Q : Nat)
    (hA : 0 < env.accounts.length) (hK : 0 < env.keys.length) (c i : Nat) (w : World)
    (hw : w.nowCalls = c + i) :
    ∃ (r : Nat) (T : List Effect),
      submitBody env totalAnswerTxs Q i (w, 2 * Q * i)
        = .ok ({ w with nowCalls := c + (i + 1), randomCalls := r, trace := w.trace ++ T },
            2 * Q * (i + 1)) ∧
      T.map eraseAnswer = submitEffects env totalAnswerTxs Q w.now c i := by
  obtain ⟨r, T, h, e⟩ := loopFrom_question env totalAnswerTxs i
    (gameIdAt env (w.now w.nowCalls) i) hK (2 * Q * i) Q 0 { w with nowCalls := w.nowCalls + 1 }
  refine ⟨r, T, ?_, ?_⟩
  · unfold submitBody
    simp only [generateGameId_ok env i w hA, bind, Except.bind]
    simp only [Nat.mul_zero, Nat.add_zero, Nat.zero_add] at h
    rw [h]
    have e1 : 2 * Q * i + 2 * Q = 2 * Q * (i + 1) := by ring
    have e2 : w.nowCalls + 1 = c + (i + 1) := by omega
    rw [e1, e2]
  · rw [e, hw]
    rfl

theorem loopFrom_submit (env : Env) (totalAnswerTxs Q : Nat)
    (hA : 0 < env.accounts.length) (hK : 0 < env.keys.length) (c : Nat) :
    ∀ (k i : Nat) (w : World), w.nowCalls = c + i →
      ∃ (r : Nat) (T : List Effect),
        loopFrom (submitBody env totalAnswerTxs Q) k i (w, 2 * Q * i)
          = .ok ({ w with nowCalls := c + (i + k), randomCalls := r, trace := w.trace ++ T },
              2 * Q * (i + k)) ∧
        T.map eraseAnswer = blocks (submitEffects env totalAnswerTxs Q w.now c) k i := by
  intro k
  induction k with
  | zero =>
    intro i w hw
    refine ⟨w.randomCalls, [], ?_, rfl⟩
    simp only [loopFrom, List.append_nil, Nat.add_zero]
    rw [← hw]
  | succ k ih =>
    intro i w hw
    obtain ⟨r1, T1, h1, e1⟩ := submitBody_ok env totalAnswerTxs Q hA hK c i w hw
    obtain ⟨r2, T2, h2, e2⟩ := ih (i + 1)
      { w with nowCalls := c + (i + 1), randomCalls := r1, trace := w.trace ++ T1 } rfl
    refine ⟨r2, T1 ++ T2, ?_, ?_⟩
    · show (submitBody env totalAnswerTxs Q i (w, 2 * Q * i)
          >>= loopFrom (submitBody env totalAnswerTxs Q) k (i + 1)) = _
      rw [h1]
      show loopFrom (submitBody env totalAnswerTxs Q) k (i + 1) _ = _
      rw [h2]
      simp only [List.append_assoc]
      have e3 : i + 1 + k = i + (k + 1) := by omega
      rw [e3]
    · rw [List.map_append, e1, e2]
      rfl

/-! ## The trace of `main` -/

theorem main_ok (env : Env) (G Q : Nat) (now : Nat → Nat) (random : Nat → ℚ)
    (hA : 0 < env.accounts.length) (hK : 0 < env.keys.length) :
    ∃ (r : Nat) (T : List Effect),
      main env G Q now random
        = .ok ({ now := now, nowCalls := G + G, random := random, randomCalls := r,
                 trace := blocks (createEffects env G) G 0 ++ [.tick .bar1] ++ T
                   ++ [.tick .bar2] ++ blocks (endEffects env now G) G 0 }, G * Q * 2) ∧
      T.map eraseAnswer = blocks (submitEffects env (G * Q * 2) Q now 0) G 0 := by
  obtain ⟨r, T, h, e⟩ := loopFrom_submit env (G * Q * 2) Q hA hK 0 G 0
    { now := now, nowCalls := 0, random := random, randomCalls := 0,
      trace := blocks (createEffects env G) G 0 ++ [.tick .bar1] } rfl
  refine ⟨r, T, ?_, e⟩
  unfold main mainFrom
  simp only [loopFrom_create env G hA hK, bind, Except.bind, emit, List.nil_append]
  simp only [Nat.mul_zero, Nat.zero_add] at h
  rw [h]
  simp only []
  rw [loopFrom_end env hA hK G G 0 _ (by simp)]
  simp only [pure, Except.pure, Nat.add_zero, List.append_assoc]
  have e1 : 2 * Q * G = G * Q * 2 := by ring
  rw [e1]

/-! ## Observing the trace -/

/-- Replaces the answer carried by a written record by 0. -/
def eraseRecord (r : PrivateKey × Tx) : PrivateKey × Tx := (r.1, eraseTx r.2)

theorem streamOf_append (h : Stream) :
    ∀ (a b : List Effect), streamOf h (a ++ b) = streamOf h a ++ streamOf h b := by
  intro a
  induction a with
  | nil => intro b; rfl
  | cons x a ih =>
    intro b
    rw [List.cons_append]
    cases x with
    | write h1 wallet tx =>
      by_cases hh : h1 = h
      · simp only [streamOf, if_pos hh, ih, List.cons_append]
      · simp only [streamOf, if_neg hh, ih]
    | tick bar => simp only [streamOf, ih]

theorem streamOf_erase (h : Stream) :
    ∀ (T : List Effect), streamOf h (T.map eraseAnswer) = (streamOf h T).map eraseRecord := by
  intro T
  induction T with
  | nil => rfl
  | cons x T ih =>
    cases x with
    | write h1 wallet tx =>
      by_cases hh : h1 = h
      · simp only [List.map, eraseAnswer, streamOf, if_pos hh, ih, eraseRecord]
      · simp only [List.map, eraseAnswer, streamOf, if_neg hh, ih]
    | tick bar => simp only [List.map, eraseAnswer, streamOf, ih]

theorem tickPoints_append :
    ∀ (a b : List Effect) (n : Nat),
      tickPoints (a ++ b) n = tickPoints a n ++ tickPoints b (n + (streamOf .answers a).length) := by
  intro a
  induction a with
  | nil => intro b n; rfl
  | cons x a ih =>
    intro b n
    rw [List.cons_append]
    cases x with
    | write h1 wallet tx =>
      cases h1 with
      | create => simp only [tickPoints, streamOf, ih, if_false, reduceCtorEq]
      | answers =>
        simp only [tickPoints, streamOf, ih, if_true, List.length_cons]
        have e : n + 1 + (streamOf .answers a).length = n + ((streamOf .answers a).length + 1) := by
          omega
        rw [e]
      | finish => simp only [tickPoints, streamOf, ih, if_false, reduceCtorEq]
    | tick bar =>
      cases bar with
      | bar1 => simp only [tickPoints, streamOf, ih]
      | bar2 => simp only [tickPoints, streamOf, ih, List.cons_append]

theorem tickPoints_erase :
    ∀ (T : List Effect) (n : Nat), tickPoints (T.map eraseAnswer) n = tickPoints T n := by
  intro T
  induction T with
  | nil => intro n; rfl
  | cons x T ih =>
    intro n
    cases x with
    | write h1 wallet tx =>
      cases h1 with
      | create => simp only [List.map, eraseAnswer, tickPoints, ih]
      | answers => simp only [List.map, eraseAnswer, tickPoints, ih]
      | finish => simp only [List.map, eraseAnswer, tickPoints, ih]
    | tick bar =>
      cases bar with
      | bar1 => simp only [List.map, eraseAnswer, tickPoints, ih]
      | bar2 => simp only [List.map, eraseAnswer, tickPoints, ih]

/-- The record written by iteration `i` of the create loop. -/
def createRecord (env : Env) (i : Nat) : PrivateKey × Tx :=
  (entry env.keys (player1Index i env.accounts.length % env.keys.length),
    .createGame (entry env.accounts (player2Index i env.accounts.length)))

/-- The record written by iteration `i` of the end loop, after `c` earlier clock reads. -/
def endRecord (env : Env) (now : Nat → Nat) (c i : Nat) : PrivateKey × Tx :=
  (entry env.keys (i % env.keys.length), .forceEndGame (gameIdAt env (now (c + i)) i))

/-- The two records, answers erased, written for question `q` of game `i`. -/
def answerRecords (env : Env) (gameId : Bytes32) (i q : Nat) : List (PrivateKey × Tx) :=
  [(entry env.keys (player1Index i env.accounts.length % env.keys.length),
      .submitAnswer gameId q 0),
   (entry env.keys (player2Index i env.accounts.length % env.keys.length),
      .submitAnswer gameId q 0)]

theorem streamOf_createEffects (env : Env) (G i : Nat) (h : Stream) :
    streamOf h (createEffects env G i) = if h = .create then [createRecord env i] else [] := by
  unfold createEffects createRecord
  by_cases hc : 0 < i ∧ env.bar1Due G i = true
  · cases h <;> simp [streamOf, hc]
  · cases h <;> simp [streamOf, hc]

theorem streamOf_endEffects (env : Env) (now : Nat → Nat) (c i : Nat) (h : Stream) :
    streamOf h (endEffects env now c i) = if h = .finish then [endRecord env now c i] else [] := by
  unfold endEffects endRecord
  cases h <;> simp [streamOf]

theorem streamOf_questionEffects (env : Env) (total i : Nat) (gameId : Bytes32) (n q : Nat)
    (h : Stream) :
    streamOf h (questionEffects env total i gameId n q)
      = if h = .answers then answerRecords env gameId i q else [] := by
  unfold questionEffects answerRecords
  by_cases hc : (n + 2) % max 1 (total / 100) = 0
  · cases h <;> simp [streamOf, hc]
  · cases h <;> simp [streamOf, hc]

theorem streamOf_submitEffects (env : Env) (total Q : Nat) (now : Nat → Nat) (c i : Nat)
    (h : Stream) :
    streamOf h (submitEffects env total Q now c i)
      = if h = .answers then
          blocks (fun q => answerRecords env (gameIdAt env (now (c + i)) i) i q) Q 0
        else [] := by
  unfold submitEffects
  rw [blocks_map (streamOf h) rfl (streamOf_append h)]
  by_cases hh : h = .answers
  · rw [if_pos hh]
    apply blocks_congr
    intro j _ _
    rw [streamOf_questionEffects, if_pos hh]
  · rw [if_neg hh]
    apply blocks_nil
    intro j
    rw [streamOf_questionEffects, if_neg hh]

theorem length_answers_blocks (env : Env) (now : Nat → Nat) (Q : Nat) :
    ∀ (k i : Nat),
      (blocks (fun g => blocks (fun q => answerRecords env (gameIdAt env (now (0 + g)) g) g q) Q 0)
        k i).length = k * (Q * 2) := by
  apply blocks_length
  intro g
  apply blocks_length
  intro q
  rfl

theorem tickPoints_blocks_nil (f : Nat → List Effect)
    (h1 : ∀ j n, tickPoints (f j) n = []) (h2 : ∀ j, streamOf .answers (f j) = []) :
    ∀ (k i n : Nat), tickPoints (blocks f k i) n = [] := by
  intro k
  induction k with
  | zero => intro i n; rfl
  | succ k ih =>
    intro i n
    show tickPoints (f i ++ blocks f k (i + 1)) n = []
    rw [tickPoints_append, h1, h2, ih]
    rfl

theorem tickPoints_createEffects (env : Env) (G i n : Nat) :
    tickPoints (createEffects env G i) n = [] := by
  unfold createEffects
  by_cases hc : 0 < i ∧ env.bar1Due G i = true
  · simp [tickPoints, hc]
  · simp [tickPoints, hc]

theorem tickPoints_endEffects (env : Env) (now : Nat → Nat) (c i n : Nat) :
    tickPoints (endEffects env now c i) n = [] := by
  simp [endEffects, tickPoints]

/-- The streams and the tick points of a run of `main` with non-empty pools. -/
theorem main_streams (env : Env) (G Q : Nat) (now : Nat → Nat) (random : Nat → ℚ)
    (hA : 0 < env.accounts.length) (hK : 0 < env.keys.length) :
    ∃ (w : World), main env G Q now random = .ok (w, G * Q * 2) ∧
      streamOf .create w.trace = blocks (fun i => [createRecord env i]) G 0 ∧
      (streamOf .answers w.trace).map eraseRecord
        = blocks (fun g => blocks (fun q =>
            answerRecords env (gameIdAt env (now (0 + g)) g) g q) Q 0) G 0 ∧
      streamOf .finish w.trace = blocks (fun i => [endRecord env now G i]) G 0 ∧
      tickPoints w.trace 0
        = tickPoints (blocks (submitEffects env (G * Q * 2) Q now 0) G 0) 0 ++ [G * Q * 2] := by
  obtain ⟨r, T, h, e⟩ := main_ok env G Q now random hA hK
  have hT : ∀ s : Stream, (streamOf s T).map eraseRecord
      = blocks (fun g => streamOf s (submitEffects env (G * Q * 2) Q now 0 g)) G 0 := by
    intro s
    rw [← streamOf_erase, e, blocks_map (streamOf s) rfl (streamOf_append s)]
  have hTc : streamOf .create T = [] := by
    have := hT .create
    rw [blocks_nil _ (fun j => by rw [streamOf_submitEffects]; rfl)] at this
    exact List.map_eq_nil_iff.mp this
  have hTf : streamOf .finish T = [] := by
    have := hT .finish
    rw [blocks_nil _ (fun j => by rw [streamOf_submitEffects]; rfl)] at this
    exact List.map_eq_nil_iff.mp this
  have hTa : (streamOf .answers T).map eraseRecord
      = blocks (fun g => blocks (fun q =>
          answerRecords env (gameIdAt env (now (0 + g)) g) g q) Q 0) G 0 := by
    rw [hT .answers]
    apply blocks_congr
    intro j _ _
    rw [streamOf_submitEffects]
    rfl
  have hCs : ∀ s : Stream, streamOf s (blocks (createEffects env G) G 0)
      = blocks (fun i => if s = .create then [createRecord env i] else []) G 0 := by
    intro s
    rw [blocks_map (streamOf s) rfl (streamOf_append s)]
    apply blocks_congr
    intro j _ _
    rw [streamOf_createEffects]
  have hEs : ∀ s : Stream, streamOf s (blocks (endEffects env now G) G 0)
      = blocks (fun i => if s = .finish then [endRecord env now G i] else []) G 0 := by
    intro s
    rw [blocks_map (streamOf s) rfl (streamOf_append s)]
    apply blocks_congr
    intro j _ _
    rw [streamOf_endEffects]
  refine ⟨_, h, ?_, ?_, ?_, ?_⟩
  · simp only [streamOf_append, hTc, hCs, hEs, streamOf, reduceCtorEq, if_false, if_true,
      List.append_nil]
    rw [blocks_nil (fun _ => ([] : List (PrivateKey × Tx))) (fun _ => rfl)]
    simp
  · simp only [streamOf_append, hCs, hEs, streamOf, reduceCtorEq, if_false, List.append_nil]
    rw [blocks_nil (fun _ => ([] : List (PrivateKey × Tx))) (fun _ => rfl)]
    simp only [List.nil_append, List.append_nil]
    exact hTa
  · simp only [streamOf_append, hTf, hCs, hEs, streamOf, reduceCtorEq, if_false, if_true,
      List.append_nil]
    rw [blocks_nil (fun _ => ([] : List (PrivateKey × Tx))) (fun _ => rfl)]
    simp
  · have hlen : (streamOf .answers T).length = G * Q * 2 := by
      have := congrArg List.length hTa
      rw [List.length_map, length_answers_blocks] at this
      rw [this, Nat.mul_assoc]
    simp only [tickPoints_append, streamOf_append, hCs, hEs, streamOf, reduceCtorEq, if_false,
      List.append_nil]
    rw [blocks_nil (fun _ => ([] : List (PrivateKey × Tx))) (fun _ => rfl),
      tickPoints_blocks_nil _ (tickPoints_createEffects env G)
        (fun j => by rw [streamOf_createEffects]; rfl),
      tickPoints_blocks_nil _ (tickPoints_endEffects env now G)
        (fun j => by rw [streamOf_endEffects]; rfl)]
    simp only [tickPoints, List.nil_append, List.append_nil, List.length_nil, Nat.add_zero,
      Nat.zero_add, hlen]
    rw [← tickPoints_erase, e]

theorem eraseRecord_submit (r : PrivateKey × Tx) (wallet : PrivateKey) (g : Bytes32) (q : Nat)
    (h : eraseRecord r = (wallet, .submitAnswer g q 0)) :
    ∃ answer : Int, r = (wallet, .submitAnswer g q answer) := by
  obtain ⟨k, tx⟩ := r
  cases tx with
  | createGame o => simp [eraseRecord, eraseTx] at h
  | submitAnswer g1 q1 a =>
    simp only [eraseRecord, eraseTx, Prod.mk.injEq, Tx.submitAnswer.injEq] at h
    obtain ⟨h1, h2, h3, _⟩ := h
    exact ⟨a, by rw [h1, h2, h3]⟩
  | forceEndGame g1 => simp [eraseRecord, eraseTx] at h

/-- The records of a run of `main` by position in each stream. -/
theorem main_records (env : Env) (G Q : Nat) (now : Nat → Nat) (random : Nat → ℚ)
    (hA : 0 < env.accounts.length) (hK : 0 < env.keys.length) :
    ∃ (w : World), main env G Q now random = .ok (w, G * Q * 2) ∧
      ((streamOf .create w.trace).length = G ∧
        (streamOf .answers w.trace).length = G * Q * 2 ∧
        (streamOf .finish w.trace).length = G) ∧
      (∀ i, i < G → (streamOf .create w.trace)[i]? = some (createRecord env i)) ∧
      (∀ k, k < G * Q * 2 → ∃ answer : Int, (streamOf .answers w.trace)[k]?
        = some (entry env.keys
            (((k / (2 * Q)) * 2 + k % 2) % env.accounts.length % env.keys.length),
          .submitAnswer (gameIdAt env (now (k / (2 * Q))) (k / (2 * Q))) (k / 2 % Q) answer)) ∧
      (∀ i, i < G → (streamOf .finish w.trace)[i]? = some (endRecord env now G i)) := by
  obtain ⟨w, h, hc, ha, hf, _⟩ := main_streams env G Q now random hA hK
  refine ⟨w, h, ⟨?_, ?_, ?_⟩, ?_, ?_, ?_⟩
  · rw [hc, blocks_length (fun i => [createRecord env i]) 1 (fun _ => rfl)]
    omega
  · have := congrArg List.length ha
    rw [List.length_map, length_answers_blocks] at this
    rw [this, Nat.mul_assoc]
  · rw [hf, blocks_length (fun i => [endRecord env now G i]) 1 (fun _ => rfl)]
    omega
  · intro i hi
    rw [hc, blocks_getElem? (fun i => [createRecord env i]) 1 (by decide) (fun _ => rfl) G 0 i
      (by omega)]
    simp [Nat.mod_one]
  · intro k hk
    have hQ : 0 < Q := by
      rcases Nat.eq_zero_or_pos Q with h0 | h0
      · rw [h0] at hk
        simp at hk
      · exact h0
    have hk2 : k / 2 < G * Q := by
      rw [Nat.div_lt_iff_lt_mul (by decide)]
      exact hk
    have hget : ((streamOf .answers w.trace).map eraseRecord)[k]?
        = (answerRecords env (gameIdAt env (now (0 + k / 2 / Q)) (k / 2 / Q)) (k / 2 / Q)
            (k / 2 % Q))[k % 2]? := by
      rw [ha, blocks_flatten (fun g q =>
          answerRecords env (gameIdAt env (now (0 + g)) g) g q) Q hQ G 0,
        blocks_getElem? (fun j => answerRecords env (gameIdAt env (now (0 + j / Q)) (j / Q))
          (j / Q) (j % Q)) 2 (by decide) (fun _ => rfl) (G * Q) (0 * Q) k (by omega)]
      simp only [Nat.zero_mul, Nat.zero_add]
    rw [List.getElem?_map, Nat.zero_add, Nat.div_div_eq_div_mul] at hget
    have hlt : k % 2 < 2 := Nat.mod_lt _ (by decide)
    rcases Nat.lt_or_ge (k % 2) 1 with h0 | h1
    · have e0 : k % 2 = 0 := by omega
      rw [e0] at hget ⊢
      cases hr : (streamOf .answers w.trace)[k]? with
      | none => rw [hr] at hget; simp [answerRecords] at hget
      | some r =>
        rw [hr] at hget
        simp only [Option.map_some', answerRecords, List.getElem?_cons_zero,
          Option.some.injEq] at hget
        obtain ⟨a, ea⟩ := eraseRecord_submit r _ _ _ hget
        exact ⟨a, by rw [ea]; rfl⟩
    · have e1 : k % 2 = 1 := by omega
      rw [e1] at hget ⊢
      cases hr : (streamOf .answers w.trace)[k]? with
      | none => rw [hr] at hget; simp [answerRecords] at hget
      | some r =>
        rw [hr] at hget
        simp only [Option.map_some', answerRecords, List.getElem?_cons_succ,
          List.getElem?_cons_zero, Option.some.injEq] at hget
        obtain ⟨a, ea⟩ := eraseRecord_submit r _ _ _ hget
        exact ⟨a, by rw [ea]; rfl⟩
  · intro i hi
    rw [hf, blocks_getElem? (fun i => [endRecord env now G i]) 1 (by decide) (fun _ => rfl) G 0 i
      (by omega)]
    simp [Nat.mod_one]

/-! ## The batch builder -/

/-- A provisioning with four accounts and four keys, and a pairing function, which has
no collisions, in place of the hash. -/
def sampleEnv : Env :=
  { hashing := { gameHash := fun t a b i => Nat.pair (Nat.pair t a) (Nat.pair b i),
                 seedHash := fun g q => Nat.pair g q },
    accounts := [100, 101, 102, 103],
    keys := [900, 901, 902, 903],
    bar1Due := fun _ _ => false }

/-- C5: with non-empty account and key pools `main` completes, having appended exactly
`gameCount` records to the create stream, `gameCount * answersPerGame * 2` records to the
submit stream and `gameCount` records to the end stream, and the final `answerTxCount` is
`gameCount * answersPerGame * 2`. -/
theorem main_stream_counts (env : Env) (G Q : Nat) (now : Nat → Nat) (random : Nat → ℚ)
    (hA : 0 < env.accounts.length) (hK : 0 < env.keys.length) :
    ∃ (w : World) (answerTxCount : Nat), main env G Q now random = .ok (w, answerTxCount) ∧
      (streamOf .create w.trace).length = G ∧
      (streamOf .answers w.trace).length = G * Q * 2 ∧
      (streamOf .finish w.trace).length = G ∧
      answerTxCount = G * Q * 2 := by
  obtain ⟨w, h, ⟨h1, h2, h3⟩, _⟩ := main_records env G Q now random hA hK
  exact ⟨w, G * Q * 2, h, h1, h2, h3, rfl⟩

theorem main_stream_counts_witness :
    ∃ (w : World) (answerTxCount : Nat),
      main sampleEnv 2 1 sampleWorld.now sampleWorld.random = .ok (w, answerTxCount) ∧
      (streamOf .create w.trace).length = 2 ∧
      (streamOf .answers w.trace).length = 4 ∧
      (streamOf .finish w.trace).length = 2 ∧
      answerTxCount = 4 :=
  main_stream_counts sampleEnv 2 1 sampleWorld.now sampleWorld.random (by decide) (by decide)

/-- C6: with non-empty pools `main` completes and, for every position
`k < gameCount * answersPerGame * 2`, the `k`-th record of the submit stream is the
`submitAnswer` transaction of game `k / (2 * answersPerGame)` (carrying that game's
identifier), question `(k / 2) mod answersPerGame` and player slot `k mod 2` (signed with
that slot's key); and for every `i < gameCount` the `i`-th record of the create stream and
of the end stream is the one of game `i`. -/
theorem submit_stream_order (env : Env) (G Q : Nat) (now : Nat → Nat) (random : Nat → ℚ)
    (hA : 0 < env.accounts.length) (hK : 0 < env.keys.length)
    (k : Nat) (hk : k < G * Q * 2) (i : Nat) (hi : i < G) :
    ∃ (w : World) (n : Nat), main env G Q now random = .ok (w, n) ∧
      (∃ answer : Int, (streamOf .answers w.trace)[k]?
        = some (entry env.keys
            (((k / (2 * Q)) * 2 + k % 2) % env.accounts.length % env.keys.length),
          .submitAnswer (gameIdAt env (now (k / (2 * Q))) (k / (2 * Q))) (k / 2 % Q) answer)) ∧
      (streamOf .create w.trace)[i]? = some (createRecord env i) ∧
      (streamOf .finish w.trace)[i]? = some (endRecord env now G i) := by
  obtain ⟨w, h, _, hc, ha, hf⟩ := main_records env G Q now random hA hK
  exact ⟨w, G * Q * 2, h, ha k hk, hc i hi, hf i hi⟩

theorem submit_stream_order_witness :
    ∃ (w : World) (n : Nat), main sampleEnv 2 1 sampleWorld.now sampleWorld.random = .ok (w, n) ∧
      (∃ answer : Int, (streamOf .answers w.trace)[3]?
        = some (entry sampleEnv.keys
            (((3 / (2 * 1)) * 2 + 3 % 2) % sampleEnv.accounts.length % sampleEnv.keys.length),
          .submitAnswer (gameIdAt sampleEnv (sampleWorld.now (3 / (2 * 1))) (3 / (2 * 1)))
            (3 / 2 % 1) answer)) ∧
      (streamOf .create w.trace)[1]? = some (createRecord sampleEnv 1) ∧
      (streamOf .finish w.trace)[1]? = some (endRecord sampleEnv sampleWorld.now 2 1) :=
  submit_stream_order sampleEnv 2 1 sampleWorld.now sampleWorld.random (by decide) (by decide)
    3 (by decide) 1 (by decide)

theorem submit_position (G Q i q s : Nat) (hi : i < G) (hq : q < Q) (hs : s < 2) :
    i * (2 * Q) + 2 * q + s < G * Q * 2 ∧
      (i * (2 * Q) + 2 * q + s) / (2 * Q) = i ∧
      (i * (2 * Q) + 2 * q + s) % 2 = s ∧
      (i * (2 * Q) + 2 * q + s) / 2 % Q = q := by
  have hG : (i + 1) * (2 * Q) ≤ G * (2 * Q) := Nat.mul_le_mul_right _ hi
  have e1 : (i + 1) * (2 * Q) = i * (2 * Q) + 2 * Q := by ring
  have e2 : G * Q * 2 = G * (2 * Q) := by ring
  have e3 : i * (2 * Q) = 2 * (i * Q) := by ring
  refine ⟨by omega, ?_, by omega, ?_⟩
  · apply Nat.div_eq_of_lt_le
    · omega
    · rw [e1]
      omega
  · have e4 : (i * (2 * Q) + 2 * q + s) / 2 = q + Q * i := by
      rw [e3, Nat.mul_comm Q i]
      omega
    rw [e4, Nat.add_mul_mod_self_left, Nat.mod_eq_of_lt hq]

/-- C7: with `A = accounts.length ≥ 1` and `K = keys.length ≥ 1`, for every
`answersPerGame` and every game `i`: the create transaction of game `i` is signed with
key index `((2 i) mod A) mod K` and names `accounts[(2 i + 1) mod A]` as the opponent; the
`forceEndGame` transaction is signed with key index `i mod K`; and for every question `q`
and slot `s` in 0..1 the `submitAnswer` transaction of slot `s` (at position
`i * (2 Q) + 2 q + s` of the submit stream) is signed with key index
`((2 i + s) mod A) mod K`. -/
theorem signer_rotation (env : Env) (G Q : Nat) (now : Nat → Nat) (random : Nat → ℚ)
    (hA : 0 < env.accounts.length) (hK : 0 < env.keys.length)
    (i : Nat) (hi : i < G) :
    ∃ (w : World) (n : Nat), main env G Q now random = .ok (w, n) ∧
      (∃ (wallet : PrivateKey) (opponent : Address),
        env.keys[(2 * i) % env.accounts.length % env.keys.length]? = some wallet ∧
        env.accounts[(2 * i + 1) % env.accounts.length]? = some opponent ∧
        (streamOf .create w.trace)[i]? = some (wallet, .createGame opponent)) ∧
      (∃ (wallet : PrivateKey) (gameId : Bytes32),
        env.keys[i % env.keys.length]? = some wallet ∧
        (streamOf .finish w.trace)[i]? = some (wallet, .forceEndGame gameId)) ∧
      (∀ q s : Nat, q < Q → s < 2 →
        ∃ (wallet : PrivateKey) (gameId : Bytes32) (answer : Int),
          env.keys[(2 * i + s) % env.accounts.length % env.keys.length]? = some wallet ∧
          (streamOf .answers w.trace)[i * (2 * Q) + 2 * q + s]?
            = some (wallet, .submitAnswer gameId q answer)) := by
  obtain ⟨w, h, _, hc, ha, hf⟩ := main_records env G Q now random hA hK
  refine ⟨w, G * Q * 2, h, ⟨_, _, ?_, ?_, hc i hi⟩, ⟨_, _, ?_, hf i hi⟩, ?_⟩
  · rw [Nat.mul_comm 2 i]
    exact getElem?_mod_length env.keys _ hK
  · rw [Nat.mul_comm 2 i]
    exact getElem?_mod_length env.accounts _ hA
  · exact getElem?_mod_length env.keys _ hK
  · intro q s hq hs
    obtain ⟨p1, p2, p3, p4⟩ := submit_position G Q i q s hi hq hs
    obtain ⟨answer, hans⟩ := ha _ p1
    rw [p2, p3, p4] at hans
    refine ⟨_, _, answer, ?_, hans⟩
    rw [Nat.mul_comm 2 i]
    exact getElem?_mod_length env.keys _ hK

theorem signer_rotation_witness :
    ∃ (w : World) (n : Nat), main sampleEnv 2 1 sampleWorld.now sampleWorld.random = .ok (w, n) ∧
      (∃ (wallet : PrivateKey) (opponent : Address),
        sampleEnv.keys[(2 * 1) % sampleEnv.accounts.length % sampleEnv.keys.length]? = some wallet ∧
        sampleEnv.accounts[(2 * 1 + 1) % sampleEnv.accounts.length]? = some opponent ∧
        (streamOf .create w.trace)[1]? = some (wallet, .createGame opponent)) ∧
      (∃ (wallet : PrivateKey) (gameId : Bytes32),
        sampleEnv.keys[1 % sampleEnv.keys.length]? = some wallet ∧
        (streamOf .finish w.trace)[1]? = some (wallet, .forceEndGame gameId)) ∧
      (∀ q s : Nat, q < 1 → s < 2 →
        ∃ (wallet : PrivateKey) (gameId : Bytes32) (answer : Int),
          sampleEnv.keys[(2 * 1 + s) % sampleEnv.accounts.length % sampleEnv.keys.length]?
            = some wallet ∧
          (streamOf .answers w.trace)[1 * (2 * 1) + 2 * q + s]?
            = some (wallet, .submitAnswer gameId q answer)) :=
  signer_rotation sampleEnv 2 1 sampleWorld.now sampleWorld.random (by decide) (by decide)
    1 (by decide)

/-! ## Progress of the submit phase -/

theorem tickPoints_questionEffects (env : Env) (total i : Nat) (gameId : Bytes32) (n q m : Nat) :
    tickPoints (questionEffects env total i gameId n q) m
      = if (n + 2) % max 1 (total / 100) = 0 then [m + 2] else [] := by
  unfold questionEffects
  by_cases hc : (n + 2) % max 1 (total / 100) = 0
  · simp only [tickPoints, if_pos hc]
  · simp only [tickPoints, if_neg hc]

theorem tickPoints_flat (env : Env) (total : Nat) (a : Nat → Nat) (b : Nat → Bytes32)
    (c : Nat → Nat) :
    ∀ (k s : Nat),
      tickPoints (blocks (fun j => questionEffects env total (a j) (b j) (2 * j) (c j)) k s) (2 * s)
        = ((List.range' s k).map (fun j => 2 * j + 2)).filter
            (fun m => m % max 1 (total / 100) = 0) := by
  intro k
  induction k with
  | zero => intro s; rfl
  | succ k ih =>
    intro s
    show tickPoints (questionEffects env total (a s) (b s) (2 * s) (c s) ++ blocks _ k (s + 1))
      (2 * s) = _
    rw [tickPoints_append, tickPoints_questionEffects, streamOf_questionEffects, if_pos rfl]
    have e : 2 * s + (answerRecords env (b s) (a s) (c s)).length = 2 * (s + 1) := by
      show 2 * s + 2 = 2 * (s + 1)
      omega
    rw [e, ih (s + 1), List.range'_succ, List.map_cons, List.filter_cons]
    by_cases hc : (2 * s + 2) % max 1 (total / 100) = 0
    · simp only [hc, if_true, decide_True, List.singleton_append]
    · simp only [hc, if_false, decide_False, List.nil_append, Bool.false_eq_true]

theorem tickPoints_submit (env : Env) (G Q : Nat) (now : Nat → Nat) :
    tickPoints (blocks (submitEffects env (G * Q * 2) Q now 0) G 0) 0
      = ((List.range (G * Q)).map (fun j => 2 * j + 2)).filter
          (fun m => m % max 1 (G * Q * 2 / 100) = 0) := by
  rcases Nat.eq_zero_or_pos Q with hQ | hQ
  · subst hQ
    rw [blocks_nil (submitEffects env (G * 0 * 2) 0 now 0) (fun _ => rfl)]
    rfl
  · have e : blocks (submitEffects env (G * Q * 2) Q now 0) G 0
        = blocks (fun j => questionEffects env (G * Q * 2) (j / Q)
            (gameIdAt env (now (0 + j / Q)) (j / Q)) (2 * j) (j % Q)) (G * Q) (0 * Q) := by
      unfold submitEffects
      rw [blocks_flatten (fun i j => questionEffects env (G * Q * 2) i
        (gameIdAt env (now (0 + i)) i) (2 * Q * i + 2 * j) j) Q hQ G 0]
      apply blocks_congr
      intro j _ _
      have e2 : 2 * Q * (j / Q) + 2 * (j % Q) = 2 * j := by
        have := Nat.div_add_mod j Q
        calc 2 * Q * (j / Q) + 2 * (j % Q) = 2 * (Q * (j / Q) + j % Q) := by ring
          _ = 2 * j := by rw [this]
      show questionEffects env (G * Q * 2) (j / Q) _ (2 * Q * (j / Q) + 2 * (j % Q)) (j % Q) = _
      rw [e2]
    rw [e, Nat.zero_mul]
    have := tickPoints_flat env (G * Q * 2) (fun j => j / Q)
      (fun j => gameIdAt env (now (0 + j / Q)) (j / Q)) (fun j => j % Q) (G * Q) 0
    rw [Nat.mul_zero] at this
    rw [this, List.range_eq_range']

theorem length_ticks_default :
    ∀ N : Nat, (((List.range N).map (fun j => 2 * j + 2)).filter
      (fun m => m % 400 = 0)).length = N / 200 := by
  intro N
  induction N with
  | zero => rfl
  | succ N ih =>
    rw [List.range_succ, List.map_append, List.filter_append, List.length_append, ih]
    by_cases hc : (2 * N + 2) % 400 = 0
    · simp only [List.map, List.filter, hc, decide_True, List.length_singleton]
      omega
    · simp only [List.map, List.filter, hc, decide_False, List.length_nil]
      omega

/-- C10: with non-empty pools, for every `gameCount` and `answersPerGame`, `main` completes
and `bar2` is ticked inside the loop exactly at the values `n = 2 j + 2`, `j` ranging over
the `gameCount * answersPerGame` questions in order, that are multiples of
`step = max 1 (floor (2 * gameCount * answersPerGame / 100))`, followed by one final tick
at `n = 2 * gameCount * answersPerGame`; for `gameCount = 1000` and `answersPerGame = 20`
that is 101 ticks in all. -/
theorem submit_progress_ticks (env : Env) (now : Nat → Nat) (random : Nat → ℚ)
    (hA : 0 < env.accounts.length) (hK : 0 < env.keys.length) :
    (∀ G Q : Nat, ∃ (w : World) (n : Nat), main env G Q now random = .ok (w, n) ∧
      tickPoints w.trace 0
        = ((List.range (G * Q)).map (fun j => 2 * j + 2)).filter
            (fun m => m % max 1 (G * Q * 2 / 100) = 0) ++ [G * Q * 2]) ∧
    (∃ (w : World) (n : Nat), main env 1000 20 now random = .ok (w, n) ∧
      (tickPoints w.trace 0).length = 101) := by
  constructor
  · intro G Q
    obtain ⟨w, h, _, _, _, ht⟩ := main_streams env G Q now random hA hK
    exact ⟨w, G * Q * 2, h, by rw [ht, tickPoints_submit]⟩
  · obtain ⟨w, h, _, _, _, ht⟩ := main_streams env 1000 20 now random hA hK
    refine ⟨w, 1000 * 20 * 2, h, ?_⟩
    rw [ht, tickPoints_submit, List.length_append]
    have e : max 1 (1000 * 20 * 2 / 100) = 400 := by decide
    rw [e, length_ticks_default]
    rfl

theorem submit_progress_ticks_witness :
    (∀ G Q : Nat, ∃ (w : World) (n : Nat),
      main sampleEnv G Q sampleWorld.now sampleWorld.random = .ok (w, n) ∧
      tickPoints w.trace 0
        = ((List.range (G * Q)).map (fun j => 2 * j + 2)).filter
            (fun m => m % max 1 (G * Q * 2 / 100) = 0) ++ [G * Q * 2]) ∧
    (∃ (w : World) (n : Nat),
      main sampleEnv 1000 20 sampleWorld.now sampleWorld.random = .ok (w, n) ∧
      (tickPoints w.trace 0).length = 101) :=
  submit_progress_ticks sampleEnv sampleWorld.now sampleWorld.random (by decide) (by decide)

/-! ## The game identifier across phases -/

/-- C4 (failing run): one game, one question, two accounts or more, and a clock that
advances by one millisecond per reading. Both `submitAnswer` records carry the identifier
hashed from the first reading, the `forceEndGame` record carries the identifier hashed
from the second reading, and the two identifiers are different numbers. -/
theorem main_gameId_diverges :
    ∃ (w : World) (n : Nat) (a1 a2 : Int),
      main sampleEnv 1 1 sampleWorld.now sampleWorld.random = .ok (w, n) ∧
      (streamOf .answers w.trace)[0]? = some (900, .submitAnswer (gameIdAt sampleEnv 1000 0) 0 a1) ∧
      (streamOf .answers w.trace)[1]? = some (901, .submitAnswer (gameIdAt sampleEnv 1000 0) 0 a2) ∧
      (streamOf .finish w.trace)[0]? = some (900, .forceEndGame (gameIdAt sampleEnv 1001 0)) ∧
      gameIdAt sampleEnv 1000 0 = 1002202221402 ∧
      gameIdAt sampleEnv 1001 0 = 1006214635808 := by
  obtain ⟨w, h, _, _, ha, hf⟩ :=
    main_records sampleEnv 1 1 sampleWorld.now sampleWorld.random (by decide) (by decide)
  obtain ⟨a1, h1⟩ := ha 0 (by decide)
  obtain ⟨a2, h2⟩ := ha 1 (by decide)
  exact ⟨w, _, a1, a2, h, h1, h2, hf 0 (by decide), by decide, by decide⟩

end Ganit
